import Mathlib

/-!
Verification of the `slicken/history` time-series store, replay engine,
event set and portfolio bookkeeping.

Conventions of the shallow embedding:
* Go `time.Time` values are embedded as `Int`, measured in minutes since the
  epoch; the zero value of `time.Time` is the integer `0`, `t.After u` is
  `u < t`, `t.Before u` is `t < u`, and `t.IsZero()` is `t = 0`.
  Go `time.Duration` values are likewise `Int` minutes, so the source
  constants `mindur = 1 * time.Minute` and `MAXDUR = 43829 * time.Minute`
  become the integers `1` and `43829`.
* Go `float64` fields (prices, sizes, balances) are embedded as `ℚ`.
  A float division whose denominator is zero yields NaN / ±Inf in Go; such
  an operation is embedded as `goDiv`, which returns `none` in that case,
  so `none` marks "the Go code produced a non-real float" .
* Go slices become `List`, Go maps become either association lists or
  functions into `Option`, and a Go `error` result becomes `Option String`
  holding the error message.
-/

/-- One OHLCV candle (`Bar` in `bar.go`).  `Time` is the bar-open instant. -/
structure Bar where
  Time : Int
  Open : ℚ
  High : ℚ
  Low : ℚ
  Close : ℚ
  Volume : ℚ
deriving DecidableEq

/-- The zero value `Bar{}` of the Go struct. -/
def zeroBar : Bar := ⟨0, 0, 0, 0, 0, 0⟩

/-- Price mode enumeration (`Price` in `bar.go`). -/
inductive Price where
  | O | H | L | C | HL2 | HLC3 | OHLC4 | V
deriving DecidableEq

/-- `Bar.Mode` from `bar.go`, including the source's literal operator
precedence for `HL2`, `HLC3` and `OHLC4` (`High + Low/2` and so on). -/
def Bar.Mode (b : Bar) : Price → ℚ
  | .O => b.Open
  | .H => b.High
  | .L => b.Low
  | .C => b.Close
  | .HL2 => b.High + b.Low / 2
  | .HLC3 => b.High + b.Low + b.Close / 3
  | .OHLC4 => b.Open + b.High + b.Low + b.Close / 4
  | .V => b.Volume

/-- `Bar.Range` from `bar.go`. -/
def Bar.Range (b : Bar) : ℚ := b.High - b.Low

/-- `Bar.Body` from `bar.go`. -/
def Bar.Body (b : Bar) : ℚ := max b.Open b.Close - min b.Open b.Close

/-- `Bar.BodyHigh` from `bar.go`. -/
def Bar.BodyHigh (b : Bar) : ℚ := max b.Open b.Close

/-- `Bar.BodyLow` from `bar.go`. -/
def Bar.BodyLow (b : Bar) : ℚ := min b.Open b.Close

/-- `Bar.Bull` from `bar.go`. -/
def Bar.Bull (b : Bar) : Prop := b.Open < b.Close

/-- `Bar.Bear` from `bar.go`. -/
def Bar.Bear (b : Bar) : Prop := b.Close < b.Open

instance (b : Bar) : Decidable b.Bull := by unfold Bar.Bull; infer_instance

instance (b : Bar) : Decidable b.Bear := by unfold Bar.Bear; infer_instance

/-- A bar series, newest bar first (`Bars` in `bars.go`). -/
abbrev Bars := List Bar

/-- `Bars.LastBar` (the newest bar, index 0); `Bar{}` when empty. -/
def lastBar (bars : Bars) : Bar := bars.headD zeroBar

/-- `Bars.FirstBar` (the oldest bar, the final element); `Bar{}` when empty. -/
def firstBar (bars : Bars) : Bar := bars.getLastD zeroBar

/-- `Bars.Period`: `bars[0].Time - bars[1].Time`, defaulting to one minute
when the series has fewer than two bars. -/
def barsPeriod (bars : Bars) : Int :=
  match bars with
  | b0 :: b1 :: _ => b0.Time - b1.Time
  | _ => 1

/-- Stable insertion of a bar into a descending-by-time list; used to model
`sort.SliceStable` with the comparison `bars[i].Time > bars[j].Time`. -/
def insertDesc (a : Bar) : Bars → Bars
  | [] => [a]
  | b :: l => if a.Time < b.Time then b :: insertDesc a l else a :: b :: l

/-- `Bars.Sort`: stable sort, descending by time.  Stable sorting under a
fixed total preorder has a unique result, so this insertion sort computes
exactly what Go's `sort.SliceStable` computes in `bars.go`. -/
def sortBars (bars : Bars) : Bars := bars.foldr insertDesc []

/-- Times are weakly descending (the order `Bars.Sort` establishes). -/
def SortedDesc (bars : Bars) : Prop := bars.Pairwise (fun a b => b.Time ≤ a.Time)

/-- Times are strictly descending (the store invariant claimed in the spec). -/
def StrictDesc (bars : Bars) : Prop := bars.Pairwise (fun a b => b.Time < a.Time)

instance (bars : Bars) : Decidable (SortedDesc bars) := by
  unfold SortedDesc; exact List.instDecidablePairwise bars

instance (bars : Bars) : Decidable (StrictDesc bars) := by
  unfold StrictDesc; exact List.instDecidablePairwise bars

theorem mem_insertDesc {x a : Bar} {l : Bars} :
    x ∈ insertDesc a l ↔ x = a ∨ x ∈ l := by
  induction l with
  | nil => simp [insertDesc]
  | cons b t ih =>
      by_cases h : a.Time < b.Time
      · rw [insertDesc, if_pos h, List.mem_cons, ih, List.mem_cons]
        tauto
      · rw [insertDesc, if_neg h, List.mem_cons, List.mem_cons]

theorem insertDesc_perm (a : Bar) (l : Bars) :
    List.Perm (insertDesc a l) (a :: l) := by
  induction l with
  | nil => simp [insertDesc]
  | cons b t ih =>
      by_cases h : a.Time < b.Time
      · rw [insertDesc, if_pos h]
        exact (ih.cons b).trans (List.Perm.swap a b t)
      · rw [insertDesc, if_neg h]

theorem sortBars_perm (l : Bars) : List.Perm (sortBars l) l := by
  induction l with
  | nil => simp [sortBars]
  | cons b t ih => exact (insertDesc_perm b (sortBars t)).trans (ih.cons b)

theorem mem_sortBars {x : Bar} {l : Bars} : x ∈ sortBars l ↔ x ∈ l :=
  (sortBars_perm l).mem_iff

theorem sortedDesc_insertDesc {a : Bar} {l : Bars} (h : SortedDesc l) :
    SortedDesc (insertDesc a l) := by
  unfold SortedDesc at *
  induction l with
  | nil => simp [insertDesc]
  | cons b t ih =>
      rw [List.pairwise_cons] at h
      by_cases hab : a.Time < b.Time
      · rw [insertDesc, if_pos hab, List.pairwise_cons]
        refine ⟨fun x hx => ?_, ih h.2⟩
        rcases mem_insertDesc.mp hx with rfl | hx
        · exact le_of_lt hab
        · exact h.1 x hx
      · rw [insertDesc, if_neg hab, List.pairwise_cons]
        refine ⟨fun x hx => ?_, List.pairwise_cons.mpr h⟩
        rcases List.mem_cons.mp hx with rfl | hx
        · exact le_of_not_lt hab
        · exact le_trans (h.1 x hx) (le_of_not_lt hab)

theorem sortedDesc_sortBars (l : Bars) : SortedDesc (sortBars l) := by
  induction l with
  | nil => simp [sortBars, SortedDesc]
  | cons b t ih => exact sortedDesc_insertDesc ih

theorem sortBars_eq_self {l : Bars} (h : SortedDesc l) : sortBars l = l := by
  unfold SortedDesc at h
  induction l with
  | nil => rfl
  | cons b t ih =>
      rw [List.pairwise_cons] at h
      have ht : sortBars t = t := ih h.2
      show insertDesc b (sortBars t) = b :: t
      rw [ht]
      cases t with
      | nil => rfl
      | cons c u =>
          have : ¬ b.Time < c.Time := not_lt.mpr (h.1 c (List.mem_cons_self c u))
          rw [insertDesc, if_neg this]

/-- `Bars.TimeSpan` from `bars.go`: bars strictly inside `(start, end)`,
then sorted descending. -/
def timeSpan (bars : Bars) (start endt : Int) : Bars :=
  sortBars (bars.filter (fun b => start < b.Time ∧ b.Time < endt))

/-- `Bars.Find` from `bars.go`: the index and bar whose time is exactly `t`;
`(-1, Bar{})` when the series is empty, `t` lies outside
`[firstBar.Time, lastBar.Time]`, or no bar matches. -/
def findBar (bars : Bars) (t : Int) : Int × Bar :=
  if bars = [] then (-1, zeroBar)
  else if t < (firstBar bars).Time ∨ (lastBar bars).Time < t then (-1, zeroBar)
  else
    match bars.findIdx? (fun b => b.Time = t) with
    | some i => (i, bars.getD i zeroBar)
    | none => (-1, zeroBar)

/-- The filter `merge` applies to the incoming bars: keep a new bar only when
its time is strictly after `old`'s newest or strictly before `old`'s oldest. -/
def mergeKeep (old : Bars) (b : Bar) : Prop :=
  (lastBar old).Time < b.Time ∨ b.Time < (firstBar old).Time

instance (old : Bars) (b : Bar) : Decidable (mergeKeep old b) := by
  unfold mergeKeep; infer_instance

/-- `merge` from `bars.go`: returns `new` unchanged when `old` is empty;
otherwise appends the new bars lying strictly outside `old`'s time range and
sorts the result descending. -/
def mergeBars (old new : Bars) : Bars :=
  if old = [] then new
  else sortBars (old ++ new.filter (fun b => decide (mergeKeep old b)))

/-- In a weakly descending series every bar's time is bounded by the head's. -/
theorem time_le_head {b : Bar} {t : Bars} {x : Bar} (h : SortedDesc (b :: t))
    (hx : x ∈ b :: t) : x.Time ≤ b.Time := by
  unfold SortedDesc at h
  rcases List.mem_cons.mp hx with rfl | hx
  · exact le_refl _
  · exact (List.pairwise_cons.mp h).1 x hx

/-- In a weakly descending non-empty series, every bar's time lies between
the oldest bar's time and the newest bar's time. -/
theorem time_bounds {l : Bars} (h : SortedDesc l) {x : Bar} (hx : x ∈ l) :
    (firstBar l).Time ≤ x.Time ∧ x.Time ≤ (lastBar l).Time := by
  induction l with
  | nil => cases hx
  | cons b t ih =>
      constructor
      · rcases List.mem_cons.mp hx with rfl | hxt
        · cases t with
          | nil => exact le_refl _
          | cons c u =>
              have hmem : firstBar (c :: u) ∈ c :: u := by
                unfold firstBar
                cases u with
                | nil => simp [List.getLastD]
                | cons d v => exact List.getLastD_mem_cons _ _
              have h1 : (firstBar (c :: u)).Time ≤ x.Time :=
                le_trans (le_of_eq rfl)
                  (le_trans (time_le_head (h.sublist (by simp)) hmem)
                    ((List.pairwise_cons.mp h).1 c (List.mem_cons_self c u)))
              simpa [firstBar, List.getLastD] using h1
        · have := (ih (h.sublist (List.sublist_cons_self b t)) hxt).1
          cases t with
          | nil => cases hxt
          | cons c u => simpa [firstBar, List.getLastD] using this
      · exact time_le_head h hx

theorem mem_mergeBars {old new : Bars} (hne : old ≠ []) {b : Bar} :
    b ∈ mergeBars old new ↔ b ∈ old ∨ (b ∈ new ∧ mergeKeep old b) := by
  unfold mergeBars
  rw [if_neg hne, mem_sortBars, List.mem_append, List.mem_filter]
  simp only [decide_eq_true_eq]

theorem sortedDesc_mergeBars (old new : Bars) (hne : old ≠ []) :
    SortedDesc (mergeBars old new) := by
  unfold mergeBars
  rw [if_neg hne]
  exact sortedDesc_sortBars _

/-- A series that is weakly descending has no bar strictly outside its own
time range, so merging it with itself adds nothing. -/
theorem mergeBars_self {S : Bars} (hs : SortedDesc S) (hne : S ≠ []) :
    mergeBars S S = S := by
  unfold mergeBars
  rw [if_neg hne]
  have hfilter : S.filter (fun b => decide (mergeKeep S b)) = [] := by
    apply List.filter_eq_nil_iff.mpr
    intro b hb
    have hbd := time_bounds hs hb
    simp only [decide_eq_true_eq, mergeKeep]
    push_neg
    exact ⟨hbd.2, hbd.1⟩
  rw [hfilter, List.append_nil, sortBars_eq_self hs]

theorem strictDesc_sortedDesc {l : Bars} (h : StrictDesc l) : SortedDesc l := by
  unfold StrictDesc at h
  unfold SortedDesc
  exact h.imp le_of_lt

/-- Pairwise distinctness of bar times. -/
def TimesNodup (l : Bars) : Prop := l.Pairwise (fun a b => a.Time ≠ b.Time)

theorem strictDesc_timesNodup {l : Bars} (h : StrictDesc l) : TimesNodup l := by
  unfold StrictDesc at h
  unfold TimesNodup
  exact h.imp (fun hlt => ne_of_gt hlt)

theorem sortedDesc_and_nodup_strict {l : Bars} (hs : SortedDesc l)
    (hn : TimesNodup l) : StrictDesc l := by
  unfold SortedDesc at hs
  unfold TimesNodup at hn
  unfold StrictDesc
  exact (hs.and hn).imp (fun h => lt_of_le_of_ne h.1 (Ne.symm h.2))

/-- Merging two strictly descending series (the stored one non-empty) yields
a strictly descending series: the kept incoming bars lie strictly outside the
stored range, so no two bars of the merged series share a time. -/
theorem strictDesc_mergeBars {old new : Bars} (hne : old ≠ [])
    (ho : StrictDesc old) (hn : StrictDesc new) :
    StrictDesc (mergeBars old new) := by
  apply sortedDesc_and_nodup_strict (sortedDesc_mergeBars old new hne)
  have hperm : List.Perm (mergeBars old new)
      (old ++ new.filter (fun b => decide (mergeKeep old b))) := by
    unfold mergeBars
    rw [if_neg hne]
    exact sortBars_perm _
  rw [TimesNodup, List.Perm.pairwise_iff (fun h => Ne.symm h) hperm,
    List.pairwise_append]
  refine ⟨strictDesc_timesNodup ho, ?_, ?_⟩
  · exact List.Pairwise.sublist (List.filter_sublist new) (strictDesc_timesNodup hn)
  · intro a ha b hb
    have hbk : mergeKeep old b := by
      have := (List.mem_filter.mp hb).2
      simpa using this
    have hbd := time_bounds (strictDesc_sortedDesc ho) ha
    rcases hbk with hgt | hlt
    · exact ne_of_lt (lt_of_le_of_lt hbd.2 hgt)
    · exact ne_of_gt (lt_of_lt_of_le hlt hbd.1)

/-- Remaining bars of a merge: at least everything in `old` survives. -/
theorem mergeBars_ne_nil {old new : Bars} (hne : old ≠ []) :
    mergeBars old new ≠ [] := by
  intro hcon
  rcases List.exists_mem_of_ne_nil old hne with ⟨a, ha⟩
  have : a ∈ mergeBars old new := (mem_mergeBars hne).mpr (Or.inl ha)
  rw [hcon] at this
  cases this

/-- Claim C2 as stated in the specification: `merge` is a union by bar time,
new bars strictly outside the old range are kept, a time tie is resolved in
favour of the **new** bar, and the result is sorted descending by time. -/
def mergeClaimC2 : Prop :=
  ∀ old new : Bars,
    (∀ b ∈ new, mergeKeep old b → b ∈ mergeBars old new)
    ∧ (∀ b ∈ new, (∃ a ∈ old, a.Time = b.Time) → b ∈ mergeBars old new)
    ∧ SortedDesc (mergeBars old new)

/-- A stored bar and an incoming bar sharing time 10 but with different
prices: `merge` keeps the **old** bar and drops the new one, and with an
empty `old` the result is `new` unsorted, so claim C2 is false as stated. -/
theorem mergeBars_tie_counterexample : ¬ mergeClaimC2 := by
  intro h
  have h2 := (h [⟨10, 1, 1, 1, 1, 0⟩] [⟨10, 2, 2, 2, 2, 0⟩]).2.1
    ⟨10, 2, 2, 2, 2, 0⟩ (by simp)
    ⟨⟨10, 1, 1, 1, 1, 0⟩, by simp, rfl⟩
  have : (⟨10, 2, 2, 2, 2, 0⟩ : Bar) ∉
      mergeBars [⟨10, 1, 1, 1, 1, 0⟩] [⟨10, 2, 2, 2, 2, 0⟩] := by decide
  exact this h2

/-- Amended claim C2: for a non-empty, descending stored series, `merge` keeps
exactly the stored bars plus the incoming bars whose times are strictly after
the stored newest or strictly before the stored oldest; an incoming bar whose
time ties a stored bar is kept only if it already equals a stored bar (ties
prefer the **old** bar); the result is sorted descending; and when the stored
series is empty the incoming series is returned unchanged (not resorted). -/
theorem mergeBars_amended (old new : Bars) (hne : old ≠ [])
    (hs : SortedDesc old) :
    (∀ b ∈ new, mergeKeep old b → b ∈ mergeBars old new)
    ∧ (∀ b, b ∈ mergeBars old new ↔ b ∈ old ∨ (b ∈ new ∧ mergeKeep old b))
    ∧ SortedDesc (mergeBars old new)
    ∧ (∀ b ∈ new, (∃ a ∈ old, a.Time = b.Time) →
        (b ∈ mergeBars old new ↔ b ∈ old))
    ∧ (∀ l : Bars, mergeBars [] l = l) := by
  refine ⟨?_, fun b => mem_mergeBars hne, sortedDesc_mergeBars old new hne,
    ?_, fun l => by simp [mergeBars]⟩
  · intro b hb hk
    exact (mem_mergeBars hne).mpr (Or.inr ⟨hb, hk⟩)
  · intro b _ hex
    rw [mem_mergeBars hne]
    constructor
    · rintro (h | ⟨_, hk⟩)
      · exact h
      · rcases hex with ⟨a, ha, hat⟩
        have hbd := time_bounds hs ha
        rcases hk with hgt | hlt
        · exact absurd (lt_of_le_of_lt (hat ▸ hbd.2) hgt) (lt_irrefl _)
        · exact absurd (lt_of_lt_of_le (hat ▸ hlt) hbd.1) (lt_irrefl _)
    · exact Or.inl

/-- Witness for the amended claim C2 at a concrete stored/incoming pair. -/
theorem mergeBars_amended_witness :
    SortedDesc (mergeBars [⟨10, 1, 1, 1, 1, 0⟩]
      [⟨11, 2, 2, 2, 2, 0⟩, ⟨10, 2, 2, 2, 2, 0⟩, ⟨5, 3, 3, 3, 3, 0⟩]) :=
  (mergeBars_amended [⟨10, 1, 1, 1, 1, 0⟩]
    [⟨11, 2, 2, 2, 2, 0⟩, ⟨10, 2, 2, 2, 2, 0⟩, ⟨5, 3, 3, 3, 3, 0⟩]
    (by decide) (by decide)).2.2.1

/-- State of a `History` store (`history.go`).  `bars` is the key→series map;
`writes` logs every `WriteBars` call (the persistence port) in order; `tokens`
logs every notification token the store offers to its channel.  The channel's
capacity bookkeeping is a concurrency detail with no effect on the store map,
so an offered token is recorded unconditionally. -/
structure HState where
  bars : String → Option Bars
  writes : List (String × Bars)
  tokens : List String

/-- The store as freshly allocated: no series, no writes, no tokens. -/
def initState : HState := ⟨fun _ => none, [], []⟩

/-- Map update `h.bars[symbol] = v`. -/
def mapInsert (m : String → Option Bars) (k : String) (v : Bars) :
    String → Option Bars :=
  fun s => if s = k then some v else m s

/-- Map deletion `delete(h.bars, symbol)`. -/
def mapErase (m : String → Option Bars) (k : String) :
    String → Option Bars :=
  fun s => if s = k then none else m s

/-- `History.Add` from `history.go`.  For a new key the incoming series is
installed (and the notification channel reallocated); for an existing key
whose length and newest bar match the incoming series the call returns the
error `"no new bars"` untouched; otherwise the incoming bars are persisted,
merged with the stored ones, the key is dropped when the merge has fewer than
two bars (error `"history to short"`), and a token is offered on the
notification channel. -/
def applyAdd (st : HState) (symbol : String) (bars : Bars) :
    HState × Option String :=
  match st.bars symbol with
  | none =>
      let st1 : HState := { st with bars := mapInsert st.bars symbol bars }
      if bars = [] then (st1, none)
      else
        let m := mergeBars [] bars
        let st2 : HState := { st1 with bars := mapInsert st1.bars symbol m }
        if m.length < 2 then
          ({ st2 with bars := mapErase st2.bars symbol }, some "history to short")
        else
          ({ st2 with tokens := st2.tokens ++ [symbol] }, none)
  | some b =>
      if b.length = bars.length ∧ lastBar b = lastBar bars then
        (st, some "no new bars")
      else
        let st1 : HState := { st with writes := st.writes ++ [(symbol, bars)] }
        if bars = [] then (st1, none)
        else
          let m := mergeBars b bars
          let st2 : HState := { st1 with bars := mapInsert st1.bars symbol m }
          if m.length < 2 then
            ({ st2 with bars := mapErase st2.bars symbol },
              some "history to short")
          else
            ({ st2 with tokens := st2.tokens ++ [symbol] }, none)

/-- The per-series body of `History.Limit`: keep the series when it is at
most `length` long, else truncate to its `length` newest bars. -/
def limitSeries (length : Nat) (b : Bars) : Bars :=
  if b.length ≤ length then b else b.take length

/-- `History.Limit` from `history.go`: truncate every stored series to its
`length` newest bars (series at most that long are left alone). -/
def applyLimit (st : HState) (length : Nat) : HState :=
  { st with bars := fun s => (st.bars s).map (limitSeries length) }

/-- One store mutation of the kind claim C3 ranges over.  `History.Load`
reads a persisted series and feeds it to `History.Add`, so a `Load` is an
`add` whose payload is whatever persistence returned. -/
inductive HistOp where
  | add (symbol : String) (bars : Bars)
  | limit (length : Nat)

/-- Run one operation against the store. -/
def applyOp (st : HState) : HistOp → HState
  | .add symbol bars => (applyAdd st symbol bars).1
  | .limit n => applyLimit st n

/-- Run a sequence of operations against the store. -/
def applyOps (st : HState) (ops : List HistOp) : HState :=
  ops.foldl applyOp st

/-- The per-series store invariant claimed by the specification. -/
def storeInvariantHolds (st : HState) : Prop :=
  ∀ sym S, st.bars sym = some S →
    S ≠ [] ∧ StrictDesc S ∧ mergeBars S S = S

/-- The input discipline under which the invariant actually holds: every
added (or loaded) series is non-empty and strictly descending, and every
`Limit` keeps at least one bar. -/
def ValidOp : HistOp → Prop
  | .add _ bars => bars ≠ [] ∧ StrictDesc bars
  | .limit n => 1 ≤ n

/-- `History.download` from `history.go` (the body of one auto-update fetch
after `GetKlines` succeeded, with `fetched` the downloaded series): series
shorter than two bars are ignored; when `now − 2·period` is after the newest
fetched bar's time the key is deleted from the store map and nothing else
changes; otherwise the newest fetched bar is dropped and the rest added. -/
def downloadStep (st : HState) (symbol : String) (now : Int)
    (fetched : Bars) : HState :=
  if fetched.length < 2 then st
  else if (lastBar fetched).Time < now - 2 * barsPeriod fetched then
    { st with bars := mapErase st.bars symbol }
  else
    (applyAdd st symbol fetched.tail).1

/-- The inductive part of the store invariant: every stored series is
non-empty and strictly descending. -/
def StoreWF (st : HState) : Prop :=
  ∀ s S, st.bars s = some S → S ≠ [] ∧ StrictDesc S

theorem mergeBars_nil_left (bars : Bars) : mergeBars [] bars = bars := by
  simp [mergeBars]

theorem applyAdd_preserves {st : HState} {sym : String} {bars : Bars}
    (hI : StoreWF st) (hb : bars ≠ []) (hd : StrictDesc bars) :
    StoreWF (applyAdd st sym bars).1 := by
  intro s S hlook
  unfold applyAdd at hlook
  cases hcase : st.bars sym with
  | none =>
      rw [hcase] at hlook
      dsimp only at hlook
      rw [if_neg hb] at hlook
      rw [mergeBars_nil_left] at hlook
      by_cases hlen : bars.length < 2
      · rw [if_pos hlen] at hlook
        dsimp only [mapErase, mapInsert] at hlook
        by_cases hss : s = sym
        · rw [if_pos hss] at hlook; cases hlook
        · simp only [if_neg hss] at hlook; exact hI s S hlook
      · rw [if_neg hlen] at hlook
        dsimp only [mapInsert] at hlook
        by_cases hss : s = sym
        · rw [if_pos hss] at hlook
          cases hlook
          exact ⟨hb, hd⟩
        · simp only [if_neg hss] at hlook; exact hI s S hlook
  | some b =>
      rw [hcase] at hlook
      dsimp only at hlook
      obtain ⟨hbne, hbsd⟩ := hI sym b hcase
      by_cases hdup : b.length = bars.length ∧ lastBar b = lastBar bars
      · rw [if_pos hdup] at hlook
        exact hI s S hlook
      · rw [if_neg hdup, if_neg hb] at hlook
        by_cases hlen : (mergeBars b bars).length < 2
        · rw [if_pos hlen] at hlook
          dsimp only [mapErase, mapInsert] at hlook
          by_cases hss : s = sym
          · rw [if_pos hss] at hlook; cases hlook
          · simp only [if_neg hss] at hlook; exact hI s S hlook
        · rw [if_neg hlen] at hlook
          dsimp only [mapInsert] at hlook
          by_cases hss : s = sym
          · rw [if_pos hss] at hlook
            cases hlook
            exact ⟨mergeBars_ne_nil hbne, strictDesc_mergeBars hbne hbsd hd⟩
          · simp only [if_neg hss] at hlook; exact hI s S hlook

theorem applyLimit_preserves {st : HState} {n : Nat}
    (hI : StoreWF st) (hn : 1 ≤ n) : StoreWF (applyLimit st n) := by
  intro s S hlook
  unfold applyLimit at hlook
  dsimp only at hlook
  cases hcase : st.bars s with
  | none => rw [hcase] at hlook; cases hlook
  | some b =>
      rw [hcase] at hlook
      obtain ⟨hbne, hbsd⟩ := hI s b hcase
      cases hlook
      unfold limitSeries
      by_cases hlen : b.length ≤ n
      · rw [if_pos hlen]; exact ⟨hbne, hbsd⟩
      · rw [if_neg hlen]
        constructor
        · rw [Ne, List.take_eq_nil_iff]
          push_neg
          exact ⟨by omega, hbne⟩
        · exact List.Pairwise.sublist (List.take_sublist n b) hbsd

theorem applyOps_preserves {ops : List HistOp} :
    ∀ {st : HState}, StoreWF st → (∀ op ∈ ops, ValidOp op) →
      StoreWF (applyOps st ops) := by
  induction ops with
  | nil => intro st hI _; exact hI
  | cons op rest ih =>
      intro st hI hv
      have hop := hv op (List.mem_cons_self op rest)
      have hrest : ∀ o ∈ rest, ValidOp o :=
        fun o ho => hv o (List.mem_cons_of_mem op ho)
      show StoreWF (applyOps (applyOp st op) rest)
      cases op with
      | add sym bars => exact ih (applyAdd_preserves hI hop.1 hop.2) hrest
      | limit n => exact ih (applyLimit_preserves hI hop) hrest

instance : DecidablePred ValidOp := fun op => by
  cases op with
  | add sym bars => exact inferInstanceAs (Decidable (bars ≠ [] ∧ StrictDesc bars))
  | limit n => exact inferInstanceAs (Decidable (1 ≤ n))

/-- C3 counterexample: `Add("K", [])` on a fresh store installs the empty
series under `"K"` and returns before the merge/length check, so the store
then holds an empty series and the claimed invariant is false. -/
theorem storeInvariant_counterexample :
    ¬ storeInvariantHolds (applyOps initState [HistOp.add "K" []]) := by
  intro h
  have hlook : (applyOps initState [HistOp.add "K" []]).bars "K" = some [] := by
    simp [applyOps, applyOp, applyAdd, initState, mapInsert]
  exact (h "K" [] hlook).1 rfl

/-- C3 amended: after any sequence of `Add`/`Load`/`Limit` operations in
which every added or loaded series is non-empty and strictly descending and
every `Limit` keeps at least one bar, every series in the store is non-empty,
strictly descending in time, and a fixed point of `merge` with itself. -/
theorem storeInvariant_amended (ops : List HistOp)
    (hv : ∀ op ∈ ops, ValidOp op) :
    storeInvariantHolds (applyOps initState ops) := by
  have hwf : StoreWF (applyOps initState ops) :=
    applyOps_preserves (fun s S h => by cases h) hv
  intro sym S hlook
  obtain ⟨hne, hsd⟩ := hwf sym S hlook
  exact ⟨hne, hsd, mergeBars_self (strictDesc_sortedDesc hsd) hne⟩

/-- Witness for the amended claim C3: a concrete load, a dedup-rejected
re-add, a genuine merge and a truncation, all under the input discipline. -/
theorem storeInvariant_amended_witness :
    storeInvariantHolds (applyOps initState
      [HistOp.add "K" [⟨10, 1, 1, 1, 1, 0⟩, ⟨9, 1, 1, 1, 1, 0⟩],
       HistOp.add "K" [⟨10, 1, 1, 1, 1, 0⟩, ⟨9, 1, 1, 1, 1, 0⟩],
       HistOp.add "K" [⟨11, 2, 2, 2, 2, 0⟩, ⟨10, 1, 1, 1, 1, 0⟩],
       HistOp.limit 2]) :=
  storeInvariant_amended _ (by decide)

/-- C4 counterexample: `History.Add` performs no symbol validation, so adding
a two-bar series under the **empty** symbol succeeds (no error) and installs
the series under the key `""`, contradicting "rejects an empty symbol". -/
theorem addEmptySymbol_counterexample :
    (applyAdd initState "" [⟨2, 1, 1, 1, 1, 0⟩, ⟨1, 1, 1, 1, 1, 0⟩]).2 = none
    ∧ ((applyAdd initState "" [⟨2, 1, 1, 1, 1, 0⟩, ⟨1, 1, 1, 1, 1, 0⟩]).1).bars ""
        = some [⟨2, 1, 1, 1, 1, 0⟩, ⟨1, 1, 1, 1, 1, 0⟩] := by
  constructor
  · rfl
  · rfl

/-- C4 amended: `Add` does not validate the symbol (an empty symbol is stored
like any other key — see the counterexample); when the key already exists and
the stored series has the same length as the incoming one and the same newest
bar, `Add` returns the error `"no new bars"` and the store — map, persistence
writes and notification tokens — is left exactly as it was. -/
theorem addDedup_amended (st : HState) (sym : String) (bars b : Bars)
    (hex : st.bars sym = some b) (hlen : b.length = bars.length)
    (hlast : lastBar b = lastBar bars) :
    applyAdd st sym bars = (st, some "no new bars") := by
  unfold applyAdd
  rw [hex]
  dsimp only
  rw [if_pos ⟨hlen, hlast⟩]

/-- Witness for the amended claim C4: re-adding the identical two-bar series
is rejected with `"no new bars"` and the state is untouched. -/
theorem addDedup_amended_witness :
    applyAdd ((applyAdd initState "K" [⟨10, 1, 1, 1, 1, 0⟩, ⟨9, 1, 1, 1, 1, 0⟩]).1)
        "K" [⟨10, 1, 1, 1, 1, 0⟩, ⟨9, 1, 1, 1, 1, 0⟩]
      = ((applyAdd initState "K" [⟨10, 1, 1, 1, 1, 0⟩, ⟨9, 1, 1, 1, 1, 0⟩]).1,
          some "no new bars") :=
  addDedup_amended _ "K" _ [⟨10, 1, 1, 1, 1, 0⟩, ⟨9, 1, 1, 1, 1, 0⟩]
    (by rfl) (by rfl) (by rfl)

/-- C7: in the auto-update cycle, a fetched series of at least two bars whose
newest bar is older than `now − 2·period` (period computed from the fetched
series) causes the key to be deleted from the in-memory map while the
persistence-write log and all other keys are untouched; otherwise the newest
fetched bar is dropped and the remainder goes through `History.Add`. -/
theorem downloadStaleEviction (st : HState) (sym : String) (now : Int)
    (fetched : Bars) (hlen : 2 ≤ fetched.length) :
    ((lastBar fetched).Time < now - 2 * barsPeriod fetched →
      (downloadStep st sym now fetched).bars sym = none
      ∧ (∀ s, s ≠ sym → (downloadStep st sym now fetched).bars s = st.bars s)
      ∧ (downloadStep st sym now fetched).writes = st.writes
      ∧ (downloadStep st sym now fetched).tokens = st.tokens)
    ∧ (¬ (lastBar fetched).Time < now - 2 * barsPeriod fetched →
      downloadStep st sym now fetched = (applyAdd st sym fetched.tail).1) := by
  have hnot : ¬ fetched.length < 2 := by omega
  constructor
  · intro hstale
    unfold downloadStep
    rw [if_neg hnot, if_pos hstale]
    refine ⟨?_, ?_, rfl, rfl⟩
    · dsimp only [mapErase]
      rw [if_pos rfl]
    · intro s hs
      dsimp only [mapErase]
      rw [if_neg hs]
  · intro hfresh
    unfold downloadStep
    rw [if_neg hnot, if_neg hfresh]

/-- Witness for claim C7: with the stored series for `"K"` ending at t = 90,
a fetch at `now = 100` whose newest bar is at t = 95 with period 1 is still
older than `now − 2·period = 98`, so `"K"` is evicted and no persistence
write is made. -/
theorem downloadStaleEviction_witness :
    (downloadStep ((applyAdd initState "K"
        [⟨90, 1, 1, 1, 1, 0⟩, ⟨89, 1, 1, 1, 1, 0⟩]).1) "K" 100
        [⟨95, 1, 1, 1, 1, 0⟩, ⟨94, 1, 1, 1, 1, 0⟩]).bars "K" = none
    ∧ (downloadStep ((applyAdd initState "K"
        [⟨90, 1, 1, 1, 1, 0⟩, ⟨89, 1, 1, 1, 1, 0⟩]).1) "K" 100
        [⟨95, 1, 1, 1, 1, 0⟩, ⟨94, 1, 1, 1, 1, 0⟩]).writes
      = ((applyAdd initState "K"
        [⟨90, 1, 1, 1, 1, 0⟩, ⟨89, 1, 1, 1, 1, 0⟩]).1).writes := by
  have h := (downloadStaleEviction
    ((applyAdd initState "K" [⟨90, 1, 1, 1, 1, 0⟩, ⟨89, 1, 1, 1, 1, 0⟩]).1)
    "K" 100 [⟨95, 1, 1, 1, 1, 0⟩, ⟨94, 1, 1, 1, 1, 0⟩]
    (by decide)).1 (by decide)
  exact ⟨h.1, h.2.2.1⟩

/-- Event kinds (`EventType` in `events.go`). -/
inductive EventType where
  | MARKET_BUY | MARKET_SELL | LIMIT_BUY | LIMIT_SELL
  | STOP_BUY | STOP_SELL | CLOSE | NEWS | OTHER | FORECAST
deriving DecidableEq

/-- A strategy signal (`Event` in `events.go`).  The Go field `Type` is
spelled `Type'` here because `Type` is reserved in Lean. -/
structure Event where
  Symbol : String
  Name : String
  Text : String
  Type' : EventType
  Time : Int
  Price : ℚ
  Size : ℚ
deriving DecidableEq

/-- The duplicate key of `Events.Add`: symbol, time, price and kind agree. -/
def eventDup (e old : Event) : Prop :=
  e.Symbol = old.Symbol ∧ e.Time = old.Time
    ∧ e.Price = old.Price ∧ e.Type' = old.Type'

instance (e old : Event) : Decidable (eventDup e old) := by
  unfold eventDup; infer_instance

/-- `Events.Add` from `events.go`: reject an empty symbol or a zero price,
reject an event whose (symbol, time, price, kind) already occurs, otherwise
append and report success. -/
def eventsAdd (events : List Event) (event : Event) : List Event × Bool :=
  if event.Symbol = "" ∨ event.Price = 0 then (events, false)
  else if events.any (fun old => decide (eventDup event old)) then
    (events, false)
  else (events ++ [event], true)

/-- C5: `Events.Add` rejects empty-symbol or zero-price events, rejects
duplicates keyed by (symbol, time, price, kind), otherwise appends and
returns true; a successful add makes an identical later add fail; and in the
seed scenario an event differing from a stored one only in kind is accepted
while an exact re-add is rejected. -/
theorem eventsAdd_spec (evs : List Event) (e : Event) :
    ((e.Symbol = "" ∨ e.Price = 0) → eventsAdd evs e = (evs, false))
    ∧ ((∃ o ∈ evs, eventDup e o) → eventsAdd evs e = (evs, false))
    ∧ (e.Symbol ≠ "" → e.Price ≠ 0 → (¬ ∃ o ∈ evs, eventDup e o) →
        eventsAdd evs e = (evs ++ [e], true))
    ∧ ((eventsAdd evs e).2 = true →
        (eventsAdd (eventsAdd evs e).1 e).2 = false)
    ∧ eventsAdd [] ⟨"X", "", "", .MARKET_BUY, 5, 7, 0⟩
        = ([⟨"X", "", "", .MARKET_BUY, 5, 7, 0⟩], true)
    ∧ eventsAdd [⟨"X", "", "", .MARKET_BUY, 5, 7, 0⟩]
          ⟨"X", "", "", .MARKET_SELL, 5, 7, 0⟩
        = ([⟨"X", "", "", .MARKET_BUY, 5, 7, 0⟩,
            ⟨"X", "", "", .MARKET_SELL, 5, 7, 0⟩], true)
    ∧ (eventsAdd [⟨"X", "", "", .MARKET_BUY, 5, 7, 0⟩,
          ⟨"X", "", "", .MARKET_SELL, 5, 7, 0⟩]
          ⟨"X", "", "", .MARKET_BUY, 5, 7, 0⟩).2 = false := by
  have hany : ∀ l : List Event, ∀ x : Event,
      (l.any (fun old => decide (eventDup x old)) = true) ↔ ∃ o ∈ l, eventDup x o := by
    intro l x
    rw [List.any_eq_true]
    simp only [decide_eq_true_eq]
  refine ⟨?_, ?_, ?_, ?_, by decide, by decide, by decide⟩
  · intro h
    unfold eventsAdd
    rw [if_pos h]
  · intro h
    unfold eventsAdd
    by_cases hvalid : e.Symbol = "" ∨ e.Price = 0
    · rw [if_pos hvalid]
    · rw [if_neg hvalid, if_pos ((hany evs e).mpr h)]
  · intro h1 h2 h3
    unfold eventsAdd
    rw [if_neg (by tauto), if_neg (by rw [hany]; exact h3)]
  · intro hok
    by_cases hvalid : e.Symbol = "" ∨ e.Price = 0
    · rw [(by unfold eventsAdd; rw [if_pos hvalid] :
        eventsAdd evs e = (evs, false))] at hok
      cases hok
    · by_cases hdup : evs.any (fun old => decide (eventDup e old)) = true
      · rw [(by unfold eventsAdd; rw [if_neg hvalid, if_pos hdup] :
          eventsAdd evs e = (evs, false))] at hok
        cases hok
      · have hfst : eventsAdd evs e = (evs ++ [e], true) := by
          unfold eventsAdd
          rw [if_neg hvalid, if_neg hdup]
        rw [hfst]
        unfold eventsAdd
        rw [if_neg hvalid, if_pos ((hany (evs ++ [e]) e).mpr
          ⟨e, by simp, rfl, rfl, rfl, rfl⟩)]

/-- Witness for claim C5: a fresh valid event is appended and reported true. -/
theorem eventsAdd_spec_witness :
    eventsAdd [] ⟨"BTCUSDT1h", "S", "", .MARKET_BUY, 3, 42, 0⟩
      = ([⟨"BTCUSDT1h", "S", "", .MARKET_BUY, 3, 42, 0⟩], true) :=
  (eventsAdd_spec [] ⟨"BTCUSDT1h", "S", "", .MARKET_BUY, 3, 42, 0⟩).2.2.1
    (by decide) (by decide) (by decide)

/-- An open position (`Position` in `portfolio.go`). -/
structure Position where
  Symbol : String
  Side : Bool
  EntryTime : Int
  EntryPrice : ℚ
  Size : ℚ
  Current : ℚ
  PnL : ℚ
  OpenEvent : Event
deriving DecidableEq

/-- `Position.UnrealizedPnL` from `portfolio.go`: the price move scaled by
`Size / 10000` (the source's "scale factor is position size relative to
initial balance"), **not** by `Size / EntryPrice`. -/
def Position.UnrealizedPnL (p : Position) : ℚ :=
  if p.Side then (p.Current - p.EntryPrice) * (p.Size / 10000)
  else (p.EntryPrice - p.Current) * (p.Size / 10000)

/-- `PortfolioStats` from `portfolio.go`. -/
structure PortfolioStats where
  InitialBalance : ℚ
  CurrentBalance : ℚ
  TotalPnL : ℚ
  UnrealizedPnL : ℚ
  RealizedPnL : ℚ
  TotalTrades : Int
  WinningTrades : Int
  LosingTrades : Int
  WinRate : ℚ
  MaxDrawdown : ℚ
  HighWaterMark : ℚ
deriving DecidableEq

/-- `PortfolioManager` from `portfolio.go`; the Go map of open positions by
symbol becomes an association list with unique keys. -/
structure PortfolioManager where
  Balance : ℚ
  Positions : List (String × Position)
  Stats : PortfolioStats
deriving DecidableEq

/-- Go map read `pm.Positions[symbol]`. -/
def posLookup (ps : List (String × Position)) (sym : String) : Option Position :=
  (ps.find? (fun kv => decide (kv.1 = sym))).map (fun kv => kv.2)

/-- Go map write `pm.Positions[symbol] = pos` (replace or append). -/
def posInsert (ps : List (String × Position)) (sym : String) (p : Position) :
    List (String × Position) :=
  match ps with
  | [] => [(sym, p)]
  | kv :: rest =>
      if kv.1 = sym then (sym, p) :: rest else kv :: posInsert rest sym p

/-- Go map delete `delete(pm.Positions, symbol)`. -/
def posErase (ps : List (String × Position)) (sym : String) :
    List (String × Position) :=
  match ps with
  | [] => []
  | kv :: rest => if kv.1 = sym then rest else kv :: posErase rest sym

/-- `NewPortfolioManager` from `portfolio.go`: initial balance 10000. -/
def newPortfolioManager : PortfolioManager :=
  { Balance := 10000
    Positions := []
    Stats :=
      { InitialBalance := 10000
        CurrentBalance := 10000
        TotalPnL := 0
        UnrealizedPnL := 0
        RealizedPnL := 0
        TotalTrades := 0
        WinningTrades := 0
        LosingTrades := 0
        WinRate := 0
        MaxDrawdown := 0
        HighWaterMark := 10000 } }

/-- `PortfolioManager.updateStats` from `portfolio.go`: recompute unrealised
P&L, current balance, total P&L, win rate, high-water mark and max drawdown. -/
def updateStats (pm : PortfolioManager) : PortfolioManager :=
  let unreal := (pm.Positions.map (fun kv => kv.2.UnrealizedPnL)).sum
  let current := pm.Balance + unreal
  let winRate :=
    if 0 < pm.Stats.TotalTrades then
      (pm.Stats.WinningTrades : ℚ) / (pm.Stats.TotalTrades : ℚ)
    else pm.Stats.WinRate
  let hwm :=
    if pm.Stats.HighWaterMark < current then current else pm.Stats.HighWaterMark
  let dd := if 0 < hwm then (hwm - current) / hwm else 0
  let mdd := if pm.Stats.MaxDrawdown < dd then dd else pm.Stats.MaxDrawdown
  { pm with Stats :=
      { pm.Stats with
        UnrealizedPnL := unreal
        CurrentBalance := current
        TotalPnL := pm.Stats.RealizedPnL + unreal
        WinRate := winRate
        HighWaterMark := hwm
        MaxDrawdown := mdd } }

/-- `PortfolioManager.UpdatePosition` from `portfolio.go`: refresh the open
position's current price and unrealised P&L, then recompute the statistics;
a no-op when the symbol has no open position. -/
def UpdatePosition (pm : PortfolioManager) (sym : String) (price : ℚ) :
    PortfolioManager :=
  match posLookup pm.Positions sym with
  | none => pm
  | some pos =>
      let pos1 := { pos with Current := price }
      let pos2 := { pos1 with PnL := pos1.UnrealizedPnL }
      updateStats { pm with Positions := posInsert pm.Positions sym pos2 }

/-- `PortfolioManager.ClosePosition` from `portfolio.go` for an actual
position (the Go `nil` guard is unreachable at the call sites modelled here):
the position size returns to the balance, the realised P&L is the price move
scaled by `Size / 10000`, the trade counters and statistics are updated and
the position is deleted. -/
def ClosePosition (pm : PortfolioManager) (pos : Position) (closePrice : ℚ) :
    PortfolioManager × ℚ :=
  let bal1 := pm.Balance + pos.Size
  let pnl :=
    if pos.Side then (closePrice - pos.EntryPrice) * (pos.Size / 10000)
    else (pos.EntryPrice - closePrice) * (pos.Size / 10000)
  let bal2 := bal1 + pnl
  let stats1 :=
    { pm.Stats with
      RealizedPnL := pm.Stats.RealizedPnL + pnl
      TotalTrades := pm.Stats.TotalTrades + 1 }
  let stats2 :=
    if 0 < pnl then { stats1 with WinningTrades := stats1.WinningTrades + 1 }
    else if pnl < 0 then { stats1 with LosingTrades := stats1.LosingTrades + 1 }
    else stats1
  (updateStats
    { pm with
      Balance := bal2
      Stats := stats2
      Positions := posErase pm.Positions pos.Symbol }, pnl)

/-- The strategy foundation (`BaseStrategy` in the strategy source): a
portfolio (absent only for strategies built without one) and the current
context (symbol, bar time, bar close) set by the harness. -/
structure BaseStrategy where
  portfolio : Option PortfolioManager
  symbol : String
  time : Int
  price : ℚ
  name : String

/-- `BaseStrategy.BuyEvent`: construct the `MARKET_BUY` event, and when the
portfolio balance covers `size`, debit the balance and record a long
position under the current symbol; otherwise leave the portfolio untouched.
The event is returned in every case. -/
def BuyEvent (s : BaseStrategy) (size price : ℚ) : BaseStrategy × Event :=
  let event : Event := ⟨s.symbol, s.name, "Buy", .MARKET_BUY, s.time, price, size⟩
  match s.portfolio with
  | none => (s, event)
  | some pm =>
      if size ≤ pm.Balance then
        let pm1 : PortfolioManager :=
          { pm with
            Balance := pm.Balance - size
            Positions := posInsert pm.Positions s.symbol
              ⟨s.symbol, true, s.time, price, size, price, 0, event⟩ }
        ({ s with portfolio := some pm1 }, event)
      else (s, event)

/-- `BaseStrategy.SellEvent`: as `BuyEvent` but with a `MARKET_SELL` event
and a short position. -/
def SellEvent (s : BaseStrategy) (size price : ℚ) : BaseStrategy × Event :=
  let event : Event := ⟨s.symbol, s.name, "Sell", .MARKET_SELL, s.time, price, size⟩
  match s.portfolio with
  | none => (s, event)
  | some pm =>
      if size ≤ pm.Balance then
        let pm1 : PortfolioManager :=
          { pm with
            Balance := pm.Balance - size
            Positions := posInsert pm.Positions s.symbol
              ⟨s.symbol, false, s.time, price, size, price, 0, event⟩ }
        ({ s with portfolio := some pm1 }, event)
      else (s, event)

/-- The seed portfolio scenario: a fresh manager (balance 10000), a long of
size 2000 opened at price 100 on symbol `"X"` through `BuyEvent`. -/
def seedOpened : PortfolioManager :=
  ((BuyEvent ⟨some newPortfolioManager, "X", 1, 100, "S"⟩
    2000 100).1).portfolio.getD newPortfolioManager

/-- The scenario after the price update to 110. -/
def seedUpdated : PortfolioManager := UpdatePosition seedOpened "X" 110

/-- The scenario after closing the symbol's open position at 110 (as
`BaseStrategy.Close` does, via `ClosePosition` on the looked-up position). -/
def seedClosed : PortfolioManager × ℚ :=
  match posLookup seedUpdated.Positions "X" with
  | some p => ClosePosition seedUpdated p 110
  | none => (seedUpdated, 0)

/-- C1 counterexample: the code scales P&L by `Size / 10000`, not by
`units = Size / EntryPrice`, so the open long of size 2000 entered at 100 and
marked at 110 carries unrealised P&L 2 (the claim's formula gives 200), and
the seed scenario closes with realised P&L 2 and balance 10002 instead of the
claimed 200 and 10200. -/
theorem portfolioUnits_counterexample :
    Position.UnrealizedPnL
        ⟨"X", true, 1, 100, 2000, 110, 0, ⟨"", "", "", .OTHER, 0, 0, 0⟩⟩ = 2
    ∧ (110 - 100 : ℚ) * (2000 / 100) = 200
    ∧ ((2 : ℚ) ≠ 200)
    ∧ seedClosed.2 = 2
    ∧ seedClosed.1.Balance = 10002
    ∧ ((10002 : ℚ) ≠ 10200) := by
  refine ⟨by norm_num [Position.UnrealizedPnL], by norm_num, by norm_num,
    ?_, ?_, by norm_num⟩ <;>
  · norm_num [seedClosed, seedUpdated, seedOpened, BuyEvent,
      newPortfolioManager, UpdatePosition, ClosePosition, updateStats,
      posLookup, posInsert, posErase, Position.UnrealizedPnL, Option.getD]

/-- C1 amended: portfolio accounting scales every P&L by `size / 10000`
(position size relative to the fixed initial balance), so the seed scenario —
balance 10000, long of size 2000 at 100, price updated to 110, closed at
110 — yields intermediate balance 8000, unrealised P&L 2, equity 8002, and
finally realised P&L 2, balance 10002, totalTrades 1, winningTrades 1 and
winRate 1. -/
theorem portfolioScenario_amended :
    seedOpened.Balance = 8000
    ∧ (posLookup seedUpdated.Positions "X").map Position.PnL = some 2
    ∧ seedUpdated.Stats.UnrealizedPnL = 2
    ∧ seedUpdated.Stats.CurrentBalance = 8002
    ∧ seedClosed.2 = 2
    ∧ seedClosed.1.Balance = 10002
    ∧ seedClosed.1.Stats.RealizedPnL = 2
    ∧ seedClosed.1.Stats.TotalTrades = 1
    ∧ seedClosed.1.Stats.WinningTrades = 1
    ∧ seedClosed.1.Stats.LosingTrades = 0
    ∧ seedClosed.1.Stats.WinRate = 1
    ∧ posLookup seedClosed.1.Positions "X" = none := by
  refine ⟨?_, ?_, ?_, ?_, ?_, ?_, ?_, ?_, ?_, ?_, ?_, ?_⟩ <;>
  · norm_num [seedClosed, seedUpdated, seedOpened, BuyEvent,
      newPortfolioManager, UpdatePosition, ClosePosition, updateStats,
      posLookup, posInsert, posErase, Position.UnrealizedPnL, Option.getD]

/-- C10: `BuyEvent`/`SellEvent` always return the constructed
`MARKET_BUY` / `MARKET_SELL` event; they open a position — debiting the
balance by `size` and recording the position under the current symbol — iff
the balance is at least `size`, and when it is not, the whole strategy state
(balance, positions and statistics included) is left unchanged. -/
theorem buySellEvent_spec (s : BaseStrategy) (pm : PortfolioManager)
    (size price : ℚ) (hpm : s.portfolio = some pm) :
    ((BuyEvent s size price).2
        = ⟨s.symbol, s.name, "Buy", .MARKET_BUY, s.time, price, size⟩)
    ∧ (size ≤ pm.Balance → (BuyEvent s size price).1 = { s with
        portfolio := some { pm with
          Balance := pm.Balance - size
          Positions := posInsert pm.Positions s.symbol
            ⟨s.symbol, true, s.time, price, size, price, 0,
              ⟨s.symbol, s.name, "Buy", .MARKET_BUY, s.time, price, size⟩⟩ } })
    ∧ (pm.Balance < size → (BuyEvent s size price).1 = s)
    ∧ ((SellEvent s size price).2
        = ⟨s.symbol, s.name, "Sell", .MARKET_SELL, s.time, price, size⟩)
    ∧ (size ≤ pm.Balance → (SellEvent s size price).1 = { s with
        portfolio := some { pm with
          Balance := pm.Balance - size
          Positions := posInsert pm.Positions s.symbol
            ⟨s.symbol, false, s.time, price, size, price, 0,
              ⟨s.symbol, s.name, "Sell", .MARKET_SELL, s.time, price, size⟩⟩ } })
    ∧ (pm.Balance < size → (SellEvent s size price).1 = s) := by
  unfold BuyEvent SellEvent
  rw [hpm]
  dsimp only
  by_cases h : size ≤ pm.Balance
  · rw [if_pos h, if_pos h]
    exact ⟨rfl, fun _ => rfl, fun hc => absurd h (not_le.mpr hc),
      rfl, fun _ => rfl, fun hc => absurd h (not_le.mpr hc)⟩
  · rw [if_neg h, if_neg h]
    exact ⟨rfl, fun hc => absurd hc h, fun _ => rfl,
      rfl, fun hc => absurd hc h, fun _ => rfl⟩

/-- Witness for claim C10: with balance 10000, a sell of size 20000 leaves
the strategy state untouched while still returning the `MARKET_SELL` event. -/
theorem buySellEvent_spec_witness :
    (SellEvent ⟨some newPortfolioManager, "X", 1, 100, "S"⟩ 20000 100).1
      = ⟨some newPortfolioManager, "X", 1, 100, "S"⟩
    ∧ (SellEvent ⟨some newPortfolioManager, "X", 1, 100, "S"⟩ 20000 100).2
      = ⟨"X", "S", "Sell", .MARKET_SELL, 1, 100, 20000⟩ := by
  have h := buySellEvent_spec ⟨some newPortfolioManager, "X", 1, 100, "S"⟩
    newPortfolioManager 20000 100 rfl
  exact ⟨h.2.2.2.2.2 (by norm_num [newPortfolioManager]), h.2.2.2.1⟩

/-- `MINDUR` from `data.go` (one minute), the lower period bound
`streamer.go` clamps against. -/
def MINDUR : Int := 1

/-- `MAXDUR` from `data.go` (43829 minutes), the upper period bound
`streamer.go` clamps against. -/
def MAXDUR : Int := 43829

/-- The loop of `Bars.Stream` from `streamer.go`: while `dt < end`, advance
`dt` by `interval` and emit `bars.TimeSpan(start, dt)`.  The loop is embedded
with a fuel argument (callers pass `(end − dt₀).toNat`, enough for any
positive `interval`, which the clamping guarantees); the channel becomes the
list of emitted windows. -/
def streamLoopGo (bars : Bars) (start endt iv : Int) :
    Nat → Int → List Bars
  | 0, _ => []
  | fuel + 1, dt =>
      if dt < endt then
        timeSpan bars start (dt + iv) ::
          streamLoopGo bars start endt iv fuel (dt + iv)
      else []

/-- `Bars.Stream` from `streamer.go`: clamp `start` up to the oldest bar time
(when that time is non-zero and `start` is unset or earlier), clamp `end`
down to the newest bar time (when non-zero and `end` is unset or later),
clamp `interval` into `[MINDUR, MAXDUR]`, then run the emission loop. -/
def barsStream (bars : Bars) (start endt iv : Int) : List Bars :=
  if bars = [] then []
  else
    let first := (firstBar bars).Time
    let start1 := if first ≠ 0 ∧ (start = 0 ∨ start < first) then first else start
    let last := (lastBar bars).Time
    let end1 := if last ≠ 0 ∧ (endt = 0 ∨ last < endt) then last else endt
    let iv1 := if iv < MINDUR then MINDUR else iv
    let iv2 := if MAXDUR < iv1 then MAXDUR else iv1
    streamLoopGo bars start1 end1 iv2 ((end1 - start1).toNat) start1

/-- `max(start, series.first_bar.time)`, with the series bound used when the
argument is unset — the clamp described by claim C8. -/
def claimedClampStart (bars : Bars) (start : Int) : Int :=
  if start = 0 then (firstBar bars).Time else max start (firstBar bars).Time

/-- `min(end, series.last_bar.time)`, with the series bound used when the
argument is unset — the clamp described by claim C8. -/
def claimedClampEnd (bars : Bars) (endt : Int) : Int :=
  if endt = 0 then (lastBar bars).Time else min endt (lastBar bars).Time

/-- Clamping of the step into a closed interval `[lo, hi]`. -/
def clampStep (lo hi iv : Int) : Int := max lo (min iv hi)

/-- Claim C8 as stated: the stream clamps `start` up to the oldest bar time,
`end` down to the newest bar time, and the step into `[1, 70560]` minutes,
before iterating. -/
def streamClaimC8 : Prop :=
  ∀ bars start endt iv, bars ≠ [] →
    (firstBar bars).Time ≠ 0 → (lastBar bars).Time ≠ 0 →
    barsStream bars start endt iv
      = streamLoopGo bars (claimedClampStart bars start)
          (claimedClampEnd bars endt) (clampStep 1 70560 iv)
          ((claimedClampEnd bars endt - claimedClampStart bars start).toNat)
          (claimedClampStart bars start)

/-- C8 counterexample: the constant `MAXDUR` that `streamer.go` references is
43829 minutes (`data.go`), not 70560 (the lowercase `maxdur` of `bars.go`):
a step of 50000 minutes is cut to 43829, not left inside `[1, 70560]`, and
over a two-bar series spanning `[1, 100000]` the code emits three windows
where the claimed clamp would emit two. -/
theorem streamClamp_counterexample : ¬ streamClaimC8 := by
  intro h
  have hinst := h [⟨100000, 1, 1, 1, 1, 0⟩, ⟨1, 1, 1, 1, 1, 0⟩] 0 0 50000
    (by decide) (by decide) (by decide)
  exact absurd hinst (by decide)

/-- C8 amended: `Bars.Stream` clamps `start` up to the series' oldest bar
time and `end` down to the newest bar time (series bound when unset), and
clamps the step into the closed interval `[1 minute, **43829** minutes]`
(`MINDUR`/`MAXDUR` of `data.go`) before iterating. -/
theorem streamClamp_amended (bars : Bars) (start endt iv : Int)
    (hne : bars ≠ []) (hf : (firstBar bars).Time ≠ 0)
    (hl : (lastBar bars).Time ≠ 0) :
    barsStream bars start endt iv
      = streamLoopGo bars (claimedClampStart bars start)
          (claimedClampEnd bars endt) (clampStep 1 43829 iv)
          ((claimedClampEnd bars endt - claimedClampStart bars start).toNat)
          (claimedClampStart bars start) := by
  unfold barsStream
  rw [if_neg hne]
  dsimp only
  have hstart :
      (if (firstBar bars).Time ≠ 0 ∧ (start = 0 ∨ start < (firstBar bars).Time)
        then (firstBar bars).Time else start) = claimedClampStart bars start := by
    unfold claimedClampStart
    rw [max_def]
    split_ifs <;> omega
  have hend :
      (if (lastBar bars).Time ≠ 0 ∧ (endt = 0 ∨ (lastBar bars).Time < endt)
        then (lastBar bars).Time else endt) = claimedClampEnd bars endt := by
    unfold claimedClampEnd
    rw [min_def]
    split_ifs <;> omega
  have hiv :
      (if MAXDUR < (if iv < MINDUR then MINDUR else iv) then MAXDUR
        else (if iv < MINDUR then MINDUR else iv)) = clampStep 1 43829 iv := by
    unfold clampStep MINDUR MAXDUR
    rw [max_def, min_def]
    split_ifs <;> omega
  rw [hstart, hend, hiv]

/-- Witness for the amended claim C8 at a concrete two-bar series. -/
theorem streamClamp_amended_witness :
    barsStream [⟨100000, 1, 1, 1, 1, 0⟩, ⟨1, 1, 1, 1, 1, 0⟩] 0 0 7
      = streamLoopGo [⟨100000, 1, 1, 1, 1, 0⟩, ⟨1, 1, 1, 1, 1, 0⟩]
          (claimedClampStart [⟨100000, 1, 1, 1, 1, 0⟩, ⟨1, 1, 1, 1, 1, 0⟩] 0)
          (claimedClampEnd [⟨100000, 1, 1, 1, 1, 0⟩, ⟨1, 1, 1, 1, 1, 0⟩] 0)
          (clampStep 1 43829 7)
          ((claimedClampEnd [⟨100000, 1, 1, 1, 1, 0⟩, ⟨1, 1, 1, 1, 1, 0⟩] 0
            - claimedClampStart [⟨100000, 1, 1, 1, 1, 0⟩, ⟨1, 1, 1, 1, 1, 0⟩] 0).toNat)
          (claimedClampStart [⟨100000, 1, 1, 1, 1, 0⟩, ⟨1, 1, 1, 1, 1, 0⟩] 0) :=
  streamClamp_amended [⟨100000, 1, 1, 1, 1, 0⟩, ⟨1, 1, 1, 1, 1, 0⟩] 0 0 7
    (by decide) (by decide) (by decide)

/-- The cursor loop of the replay stream: while `t < end`, first advance the
cursor by `step`, then locate the bar exactly at the cursor (a `Bar{}` miss
when absent) and emit it.  Fuel-driven like `streamLoopGo`. -/
def siGo (bars : Bars) (endt iv : Int) : Nat → Int → List Bar
  | 0, _ => []
  | fuel + 1, dt =>
      if dt < endt then
        (findBar bars (dt + iv)).2 :: siGo bars endt iv fuel (dt + iv)
      else []

/-- Modelled from the spec: `Bars.StreamInterval` — the function
`Tester.Test` iterates over — is declared and called in the sources but its
body is not among them, so it is embedded from §4.G of the specification:
clamp `start` to `max(start, series.first_bar.time)` and `end` to
`min(end, series.last_bar.time)` (series bound when unset), clamp `step` to
`[1 minute, 70560 minutes]`, then advance a cursor from `start` while it is
before `end`, adding `step` and emitting the bar located exactly at the
cursor (`Bars.Find`, which yields a zero-time `Bar{}` on a miss). -/
def streamInterval (bars : Bars) (start endt iv : Int) : List Bar :=
  if bars = [] then []
  else
    let start1 := claimedClampStart bars start
    let end1 := claimedClampEnd bars endt
    let iv1 := clampStep 1 70560 iv
    siGo bars end1 iv1 ((end1 - start1).toNat) start1

/-- The window accumulation of `Tester.Test`: each emitted bar with a
non-zero time is prepended to the current window and the strategy is invoked
on the result; the returned list is, in order, the window passed to each
`OnBar` call.  Zero-time (miss) bars are skipped. -/
def testerWindowsAux (cur : Bars) : List Bar → List Bars
  | [] => []
  | b :: rest =>
      if b.Time = 0 then testerWindowsAux cur rest
      else (b :: cur) :: testerWindowsAux (b :: cur) rest

/-- The per-symbol body of `Tester.Test` (`backtest.go`): clip the series to
`(start, end)` with `TimeSpan`, skip an empty result, then stream it with
`StreamInterval` at the clipped series' period, accumulating the expanding
descending window handed to every `OnBar` call. -/
def testerWindows (bars : Bars) (start endt : Int) : List Bars :=
  let clipped := timeSpan bars start endt
  if clipped = [] then []
  else testerWindowsAux []
    (streamInterval clipped start endt (barsPeriod clipped))

/-- The five-bar period-1 series of the replay-ordering scenario. -/
def replayBars : Bars :=
  [⟨5, 5, 5, 5, 5, 0⟩, ⟨4, 4, 4, 4, 4, 0⟩, ⟨3, 3, 3, 3, 3, 0⟩,
   ⟨2, 2, 2, 2, 2, 0⟩, ⟨1, 1, 1, 1, 1, 0⟩]

/-- C6 counterexample: over bars at t = 1..5 with period 1 and window
`[0, 6]`, the replay makes only **four** `OnBar` calls with window lengths
`[1, 2, 3, 4]` — the cursor is advanced before the first emission, so the
oldest bar (t = 1) is never delivered — not the claimed five calls
`[1, 2, 3, 4, 5]` starting from a window containing the oldest bar. -/
theorem testerTrace_counterexample :
    (testerWindows replayBars 0 6).map List.length ≠ [1, 2, 3, 4, 5]
    ∧ testerWindows replayBars 0 6 ≠
      [[⟨1, 1, 1, 1, 1, 0⟩],
       [⟨2, 2, 2, 2, 2, 0⟩, ⟨1, 1, 1, 1, 1, 0⟩],
       [⟨3, 3, 3, 3, 3, 0⟩, ⟨2, 2, 2, 2, 2, 0⟩, ⟨1, 1, 1, 1, 1, 0⟩],
       [⟨4, 4, 4, 4, 4, 0⟩, ⟨3, 3, 3, 3, 3, 0⟩, ⟨2, 2, 2, 2, 2, 0⟩,
        ⟨1, 1, 1, 1, 1, 0⟩],
       [⟨5, 5, 5, 5, 5, 0⟩, ⟨4, 4, 4, 4, 4, 0⟩, ⟨3, 3, 3, 3, 3, 0⟩,
        ⟨2, 2, 2, 2, 2, 0⟩, ⟨1, 1, 1, 1, 1, 0⟩]] := by
  exact ⟨by decide, by decide⟩

/-- C6 amended: over bars at t = 1..5 with period 1 and window `[0, 6]`,
`OnBar` is called once per bar **except the oldest**: the cursor starts at
the clamped start (t = 1) and is advanced before each emission, so the four
calls see the strictly time-ascending, monotonically growing descending
windows ending at t = 2, 3, 4, 5, each extending the previous one by one
newer bar; the oldest bar never appears in any window. -/
theorem testerTrace_amended :
    testerWindows replayBars 0 6 =
      [[⟨2, 2, 2, 2, 2, 0⟩],
       [⟨3, 3, 3, 3, 3, 0⟩, ⟨2, 2, 2, 2, 2, 0⟩],
       [⟨4, 4, 4, 4, 4, 0⟩, ⟨3, 3, 3, 3, 3, 0⟩, ⟨2, 2, 2, 2, 2, 0⟩],
       [⟨5, 5, 5, 5, 5, 0⟩, ⟨4, 4, 4, 4, 4, 0⟩, ⟨3, 3, 3, 3, 3, 0⟩,
        ⟨2, 2, 2, 2, 2, 0⟩]]
    ∧ (testerWindows replayBars 0 6).map List.length = [1, 2, 3, 4]
    ∧ List.Pairwise (fun u v : Bars => (lastBar u).Time < (lastBar v).Time)
        (testerWindows replayBars 0 6)
    ∧ ((testerWindows replayBars 0 6).zip
        (testerWindows replayBars 0 6).tail).all
          (fun p => decide (p.2.tail = p.1)) = true
    ∧ (∀ w ∈ testerWindows replayBars 0 6, ⟨1, 1, 1, 1, 1, 0⟩ ∉ w) := by
  refine ⟨by decide, by decide, by decide, by decide, by decide⟩

/-- Go float division: `none` when the denominator is zero (the Go code
produces NaN or ±Inf there, an undefined result, not a sentinel). -/
def goDiv (a b : ℚ) : Option ℚ := if b = 0 then none else some (a / b)

/-- `Bars.SMA` from `indicators.go`: the sum of the selected price over all
bars divided by the bar count — an **unguarded** division. -/
def barsSMA (bars : Bars) (mode : Price) : Option ℚ :=
  goDiv (bars.foldl (fun s b => s + b.Mode mode) 0) (bars.length : ℚ)

/-- `Bars.ATR` from `indicators.go`: mean of `high − low`, unguarded. -/
def barsATR (bars : Bars) : Option ℚ :=
  goDiv (bars.foldl (fun s b => s + b.Range) 0) (bars.length : ℚ)

/-- `Bars.EMA` from `indicators.go`: seeded with the SMA (so NaN propagates
from an empty series), then smoothed oldest→newest with `k = 2/(N+1)`. -/
def barsEMA (bars : Bars) (mode : Price) : Option ℚ :=
  (barsSMA bars mode).map (fun init =>
    let k : ℚ := 2 / ((bars.length : ℚ) + 1)
    bars.reverse.foldl (fun acc b => b.Mode mode * k + acc * (1 - k)) init)

/-- `Bars.LWMA` from `indicators.go`: weight `n − i` for index `i`, with the
division guarded by `weight > 0` and `-1` returned otherwise. -/
def barsLWMA (bars : Bars) (mode : Price) : ℚ :=
  let n := bars.length
  let acc := bars.enum.foldl
    (fun (acc : ℚ × ℚ) ib =>
      (acc.1 + ((n : ℚ) - (ib.1 : ℚ)),
       acc.2 + ib.2.Mode mode * ((n : ℚ) - (ib.1 : ℚ))))
    (0, 0)
  if 0 < acc.1 then acc.2 / acc.1 else -1

/-- `Bars.StDev` from `indicators.go` up to the final square root (which the
Go code takes with `math.Sqrt`; since `√0 = 0` the empty-series behaviour is
decided by this value): `0` for an empty series by an explicit guard,
otherwise the mean squared deviation from the SMA. -/
def barsStDevSq (bars : Bars) (mode : Price) : Option ℚ :=
  if bars.length = 0 then some 0
  else
    (barsSMA bars mode).bind (fun sma =>
      goDiv (bars.foldl
        (fun s b => s + (b.Mode mode - sma) * (b.Mode mode - sma)) 0)
        (bars.length : ℚ))

/-- `Bars.Highest` from `indicators.go`: fold with sentinel `-1`. -/
def barsHighest (bars : Bars) (mode : Price) : ℚ :=
  bars.foldl (fun h b => if h = -1 ∨ h < b.Mode mode then b.Mode mode else h) (-1)

/-- `Bars.HighestIdx` from `indicators.go`: index of the highest value,
sentinel `-1` when the series is empty. -/
def barsHighestIdx (bars : Bars) (mode : Price) : Int :=
  (bars.enum.foldl
    (fun (acc : Int × ℚ) ib =>
      if acc.2 = -1 ∨ acc.2 < ib.2.Mode mode then ((ib.1 : Int), ib.2.Mode mode)
      else acc)
    (-1, -1)).1

/-- `Bars.Lowest` from `indicators.go`: fold with sentinel `-1`. -/
def barsLowest (bars : Bars) (mode : Price) : ℚ :=
  bars.foldl (fun l b => if l = -1 ∨ b.Mode mode < l then b.Mode mode else l) (-1)

/-- `Bars.LowestIdx` from `indicators.go`. -/
def barsLowestIdx (bars : Bars) (mode : Price) : Int :=
  (bars.enum.foldl
    (fun (acc : Int × ℚ) ib =>
      if acc.2 = -1 ∨ ib.2.Mode mode < acc.2 then ((ib.1 : Int), ib.2.Mode mode)
      else acc)
    (-1, -1)).1

/-- `Bars.IsEngulfBuy` from `indicators.go`: reads `bars[0]` and `bars[1]`
unconditionally, so a series shorter than two bars panics (`none`). -/
def barsIsEngulfBuy (bars : Bars) : Option Bool :=
  match bars with
  | b0 :: b1 :: _ =>
      some (if b1.Close < b1.Open ∧ b0.Open < b0.Close
        ∧ b1.Body < b0.Body ∧ b1.BodyHigh < b0.Close then true else false)
  | _ => none

/-- `Bars.IsEngulfSell` from `indicators.go`: panics below two bars. -/
def barsIsEngulfSell (bars : Bars) : Option Bool :=
  match bars with
  | b0 :: b1 :: _ =>
      some (if b1.Open < b1.Close ∧ b0.Close < b0.Open
        ∧ b1.Body < b0.Body ∧ b0.Close < b1.BodyLow then true else false)
  | _ => none

/-- Point update of a TD counter array. -/
def tdUpdate (f : Nat → Int) (i : Nat) (v : Int) : Nat → Int :=
  fun j => if j = i then v else f j

/-- `Bars.TD` from `indicators.go`: the TD-Sequential up/down counts with
the "perfect" refinement, walking `i` from `len−5` down to `0` and finally
reading `uc[0]`/`dc[0]` — which panics on an empty series (`none`). -/
def barsTD (bars : Bars) : Option Int :=
  if bars = [] then none
  else
    let n := bars.length
    let cl := fun i => (bars.getD i zeroBar).Close
    let lo := fun i => (bars.getD i zeroBar).Low
    let p := ((List.range (n - 4)).reverse).foldl
      (fun (p : (Nat → Int) × (Nat → Int)) i =>
        let p1 :=
          if cl (i + 4) < cl i then
            let dc1 := tdUpdate p.2 i 0
            let uc1 := tdUpdate p.1 i
              (if p.1 (i + 1) < 9 then p.1 (i + 1) + 1 else 0)
            let uc2 :=
              if uc1 i = 9 ∧ (lo (i + 1) ≤ lo (i + 3) ∨ lo i ≤ lo (i + 2)) then
                tdUpdate uc1 i 10
              else uc1
            (uc2, dc1)
          else p
        if cl i < cl (i + 4) then
          let uc1 := tdUpdate p1.1 i 0
          let dc1 := tdUpdate p1.2 i
            (if p1.2 (i + 1) < 9 then p1.2 (i + 1) + 1 else 0)
          let dc2 :=
            if dc1 i = 9 ∧ (lo (i + 3) ≤ lo (i + 1) ∨ lo (i + 2) ≤ lo i) then
              tdUpdate dc1 i 10
            else dc1
          (uc1, dc2)
        else p1)
      (fun _ => 0, fun _ => 0)
    some (if p.1 0 = 9 then 1 else if p.1 0 = 10 then 2
      else if p.2 0 = 9 then -1 else if p.2 0 = 10 then -2 else 0)

/-- Claim C9 as stated: every indicator applied to an empty series returns a
sentinel value (0 or −1 according to its semantics) rather than failing or
producing an undefined result. -/
def indicatorClaimC9 : Prop :=
  ∀ mode : Price,
    (∃ s, barsSMA [] mode = some s ∧ (s = 0 ∨ s = -1))
    ∧ (barsLWMA [] mode = 0 ∨ barsLWMA [] mode = -1)
    ∧ (∃ s, barsEMA [] mode = some s ∧ (s = 0 ∨ s = -1))
    ∧ (∃ s, barsATR [] = some s ∧ (s = 0 ∨ s = -1))
    ∧ (∃ s, barsStDevSq [] mode = some s ∧ (s = 0 ∨ s = -1))
    ∧ (barsHighest [] mode = 0 ∨ barsHighest [] mode = -1)
    ∧ (barsHighestIdx [] mode = 0 ∨ barsHighestIdx [] mode = -1)
    ∧ (barsLowest [] mode = 0 ∨ barsLowest [] mode = -1)
    ∧ (barsLowestIdx [] mode = 0 ∨ barsLowestIdx [] mode = -1)
    ∧ (∃ b, barsIsEngulfBuy [] = some b)
    ∧ (∃ b, barsIsEngulfSell [] = some b)
    ∧ (∃ v, barsTD [] = some v ∧ (v = 0 ∨ v = -1))

/-- C9 counterexample: `Bars.SMA` of an empty series computes `0/0` — a NaN,
not a sentinel (and the engulfing predicates and the TD count would panic on
an index out of range). -/
theorem indicatorSentinel_counterexample : ¬ indicatorClaimC9 := by
  intro h
  rcases (h Price.C).1 with ⟨s, hs, _⟩
  have hnone : barsSMA [] Price.C = none := by
    unfold barsSMA goDiv
    norm_num
  rw [hnone] at hs
  cases hs

/-- C9 amended: `LWMA`, `StDev`, `Highest`, `Lowest`, `HighestIdx`,
`LowestIdx` do return their sentinels (−1, or 0 for `StDev`) on an empty
series, but `SMA`, `EMA` and `ATR` divide by the zero length (NaN, an
undefined result), and `IsEngulfBuy`/`IsEngulfSell` (below two bars) and the
TD count (on an empty series) index out of range instead of returning. -/
theorem indicatorSentinel_amended (mode : Price) :
    barsSMA [] mode = none
    ∧ barsEMA [] mode = none
    ∧ barsATR [] = none
    ∧ barsIsEngulfBuy [] = none
    ∧ barsIsEngulfBuy [⟨1, 1, 1, 1, 1, 0⟩] = none
    ∧ barsIsEngulfSell [] = none
    ∧ barsIsEngulfSell [⟨1, 1, 1, 1, 1, 0⟩] = none
    ∧ barsTD [] = none
    ∧ barsLWMA [] mode = -1
    ∧ barsStDevSq [] mode = some 0
    ∧ barsHighest [] mode = -1
    ∧ barsHighestIdx [] mode = -1
    ∧ barsLowest [] mode = -1
    ∧ barsLowestIdx [] mode = -1 := by
  have hsma : barsSMA [] mode = none := by
    unfold barsSMA goDiv
    norm_num
  refine ⟨hsma, ?_, ?_, rfl, rfl, rfl, rfl, rfl, ?_, ?_, rfl, rfl, rfl, rfl⟩
  · unfold barsEMA
    rw [hsma]
    rfl
  · unfold barsATR goDiv
    norm_num
  · unfold barsLWMA
    norm_num
  · unfold barsStDevSq
    norm_num

/-- Witness for the amended claim C9 at the close-price mode. -/
theorem indicatorSentinel_amended_witness :
    barsSMA [] Price.C = none ∧ barsLWMA [] Price.C = -1 :=
  ⟨(indicatorSentinel_amended Price.C).1,
    (indicatorSentinel_amended Price.C).2.2.2.2.2.2.2.2.1⟩
